import Mathlib

/-!
Shallow embedding of the per-event filter-and-fill pipeline of
`AliEMCalTriggerRecTrackAnalysisComponent` (PWGJE/EMCALJetTasks/Tracks)
and of the task-registration macro `AddTaskUpcNano_MB`
(PWGUD/UPC/nanoAOD), together with proofs about their behaviour.

Kinematic quantities are modelled as integers (the embedding uses only
ring and order structure, never division).  Histogram fills are
recorded as an explicit list of `Fill` records (name, tuple, weight);
error-severity log messages are collected in a list.  A run of
`Process` that dereferences a null pointer is modelled by the value
`none` of the surrounding `Option`.
-/

namespace EMCalTriggerPtAnalysis

/-- Kinematic and association data carried by a reconstructed track
(`AliVTrack`): transverse momentum, pseudorapidity, azimuthal angle,
MC label (`GetLabel`), and the matched-EMCAL-cluster index
(`GetEMCALcluster`). -/
structure TrackCore where
  pt : ℤ
  eta : ℤ
  phi : ℤ
  label : ℤ
  emcalClusterIdx : ℤ
  deriving DecidableEq

/-- A track in the matched-track container.  A `pico` track is an
`AliPicoTrack` wrapper: `Process` reads the cluster index from the
underlying track (`pictrack->GetTrack()`), while kinematic fills use
the wrapper object itself. -/
inductive VTrack where
  | plain (core : TrackCore)
  | pico (core : TrackCore) (underlying : TrackCore)
  deriving DecidableEq

/-- The object whose kinematics are filled (the track itself). -/
def VTrack.core : VTrack → TrackCore
  | .plain c => c
  | .pico c _ => c

/-- The `testtrack` of `Process` (cxx lines 212-214): the underlying
track for a pico track, the track itself otherwise. -/
def VTrack.unwrapped : VTrack → TrackCore
  | .plain c => c
  | .pico _ u => u

/-- An MC particle as seen through `AliVParticle`.  `aodPrimary` is
`some flag` when the particle is an `AliAODMCParticle` exposing
`IsPhysicalPrimary` directly (the flag), and `none` otherwise. -/
structure MCParticle where
  pt : ℤ
  eta : ℤ
  phi : ℤ
  aodPrimary : Option Bool

/-- The MC event (`AliMCEvent`): `GetTrack(label)` and
`IsPhysicalPrimary(label)`. -/
structure MCEvent where
  tracks : ℕ → Option MCParticle
  physPrimary : ℕ → Bool

/-- The per-event trigger decision.  `matchedNames` models the result
of `GetMachingTriggerNames` for the configured trigger method: the
base class computing it is not part of this code base, so the ordered
list of satisfied trigger-class names is taken as given, per the spec
contract of the trigger-classification stage.  `isMinBias` is
`AliEMCalTriggerAnaTriggerDecision::IsMinBias`. -/
structure TriggerDecision where
  matchedNames : List String
  isMinBias : Bool

/-- Per-event input data (`AliEMCalTriggerEventData`):
matched-track container, cluster container, MC event, and the z
coordinate of the reconstructed event primary vertex.  Containers are
`Option`s; `none` models a null pointer.  An element `none` of the
cluster container models an entry whose `dynamic_cast<AliVCluster *>`
yields null. -/
structure EventData where
  matchedTracks : Option (List VTrack)
  clusterContainer : Option (List (Option Unit))
  mcEvent : Option MCEvent
  recVertexZ : ℤ

/-- Component configuration and collaborators.
`fKineCuts` — Modelled from the spec: the implementation of
`AliEMCalTriggerKineCuts::IsSelected` (and the `AliCutValueRange` it
uses) is absent from this code base; per the spec, the cut is a closed
interval on the primary kinematic value (transverse momentum), and an
absent cut object always passes.  `fTrackSelection` is the polymorphic
external track-selection predicate; `fWeightHandler` maps the MC event
to an event weight (`GetEventWeight`). -/
structure Component where
  fTrackSelection : Option (VTrack → Bool)
  fSwapEta : Bool
  fRequestMCtrue : Bool
  fKineCuts : Option (ℤ × ℤ)
  fWeightHandler : Option (MCEvent → ℤ)
  fTriggerDecision : TriggerDecision

/-- Destination category of a histogram fill, matching the naming
scheme of `CreateHistos`: `hTrackHist<T>`, `hTrackInAcceptanceHist<T>`,
`hMCTrackHist<T>`, `hMCTrackInAcceptanceHist<T>`, and the global
`hTrackPtCorrelation`. -/
inductive FillKind where
  | raw
  | inAcc
  | mcRaw
  | mcInAcc
  | corr
  deriving DecidableEq

/-- One `FillTHnSparse` call: destination name, the numeric tuple, and
the weight. -/
structure Fill where
  histname : String
  kind : FillKind
  data : List ℤ
  weight : ℤ
  deriving DecidableEq

/-- The observable outcome of one `Process` call: the ordered list of
histogram fills and the error-severity log messages (`AliError`). -/
structure ProcResult where
  fills : List Fill
  errors : List String
  deriving DecidableEq

/-- Kinematic cut step of the track loop (cxx line 199):
`fKineCuts && !fKineCuts->IsSelected(track)` skips the candidate.
Modelled from the spec: a configured cut passes iff the transverse
momentum lies in the closed interval; no cut object means always
pass. -/
def kinePass (cuts : Option (ℤ × ℤ)) (v : ℤ) : Bool :=
  match cuts with
  | none => true
  | some (lo, hi) => decide (lo ≤ v ∧ v ≤ hi)

/-- Track-selection step (cxx line 200): absent selection object means
always accepted. -/
def selPass (sel : Option (VTrack → Bool)) (t : VTrack) : Bool :=
  match sel with
  | none => true
  | some f => f t

/-- `IsMCTrueTrack` (cxx lines 240-252): look the particle up at the
absolute value of the label; fail on no particle; check
`IsPhysicalPrimary` directly on an AOD particle, through the MC event
otherwise; return the particle on success. -/
def isMCTrueTrack (trk : VTrack) (evnt : MCEvent) : Option MCParticle :=
  let label := trk.core.label.natAbs
  match evnt.tracks label with
  | none => none
  | some mcpart =>
    match mcpart.aodPrimary with
    | some flag => if flag then some mcpart else none
    | none => if evnt.physPrimary label then some mcpart else none

/-- The event weight (cxx lines 192-195): the weighting handler output
when both the handler and the MC event are present, `1` otherwise. -/
def eventWeight (c : Component) (data : EventData) : ℤ :=
  match c.fWeightHandler, data.mcEvent with
  | some h, some mc => h mc
  | _, _ => 1

/-- `FillHistogram` (cxx lines 273-285).  Returns the fill performed,
or `none` for the silent no-op guard (`useMCkine && !assocMC`).  The
tuple is (|pt|, ±eta, phi, vertex z, min-bias flag), kinematics taken
from the MC particle when `useMCkine`. -/
def fillHistogram (c : Component) (histname : String) (kind : FillKind)
    (trk : VTrack) (assocMC : Option MCParticle) (vz : ℤ)
    (useMCkine : Bool) (weight : ℤ) : Option Fill :=
  match useMCkine, assocMC with
  | true, none => none
  | true, some mc =>
    some ⟨histname, kind,
      [|mc.pt|, (if c.fSwapEta then -1 else 1) * mc.eta, mc.phi, vz,
        if c.fTriggerDecision.isMinBias then 1 else 0], weight⟩
  | false, _ =>
    some ⟨histname, kind,
      [|trk.core.pt|, (if c.fSwapEta then -1 else 1) * trk.core.eta,
        trk.core.phi, vz,
        if c.fTriggerDecision.isMinBias then 1 else 0], weight⟩

/-- `FillCorrelation` (cxx lines 298-303): tuple
(|gen pt|, |rec pt|, rec eta, rec phi) into `hTrackPtCorrelation`. -/
def fillCorrelation (gen : MCParticle) (recTrk : VTrack) (weight : ℤ) : Fill :=
  ⟨"hTrackPtCorrelation", FillKind.corr,
    [|gen.pt|, |recTrk.core.pt|, recTrk.core.eta, recTrk.core.phi], weight⟩

/-- Cluster-matching step (cxx lines 215-216):
`testtrack->GetEMCALcluster() >= 0 &&
 dynamic_cast<AliVCluster *>(data->GetClusterContainer()->At(idx))`.
The container pointer is dereferenced without a null check once the
index is non-negative: `none` models that null dereference.  `At` on
an out-of-range index returns null. -/
def matchCluster (container : Option (List (Option Unit))) (idx : ℤ) :
    Option Bool :=
  if 0 ≤ idx then
    match container with
    | none => none
    | some l => some (l.getD idx.toNat none).isSome
  else some false

/-- Outcome of the MC-truth step of the track loop (cxx lines
205-208). -/
inductive MCStage where
  | skip
  | cont (assocMC : Option MCParticle) (corrFills : List Fill)

/-- MC-truth step (cxx lines 205-208): only when `fRequestMCtrue`,
resolve the MC particle; on failure skip the candidate; on success
fill the correlation matrix.  The call `FillCorrelation(assocMC,
track)` passes no weight argument — Modelled from the spec: the header
declaring the default value of the weight parameter is absent from
this code base; the spec states the weight defaults to 1.0.
Dereferencing a null MC event (`none` result) is unreachable from
`Process` because of its early return. -/
def mcStage (c : Component) (mcEvent : Option MCEvent) (t : VTrack) :
    Option MCStage :=
  if c.fRequestMCtrue then
    match mcEvent with
    | none => none
    | some ev =>
      match isMCTrueTrack t ev with
      | none => some MCStage.skip
      | some mc => some (MCStage.cont (some mc) [fillCorrelation mc t 1])
  else some (MCStage.cont none [])

/-- The fills of the trigger loop for one candidate and one satisfied
trigger class (cxx lines 220-225): always the raw fill, the
in-acceptance fill when a cluster is matched, and the two MC fills
when an associated MC particle exists. -/
def fillsForName (c : Component) (vz : ℤ) (weight : ℤ) (t : VTrack)
    (assocMC : Option MCParticle) (hasCluster : Bool) (name : String) :
    List Fill :=
  (fillHistogram c ("hTrackHist" ++ name) FillKind.raw t none vz false
      weight).toList ++
  (if hasCluster then
    (fillHistogram c ("hTrackInAcceptanceHist" ++ name) FillKind.inAcc t
        none vz false weight).toList
  else []) ++
  (match assocMC with
   | some _ =>
     (fillHistogram c ("hMCTrackHist" ++ name) FillKind.mcRaw t assocMC vz
         true weight).toList ++
     (if hasCluster then
       (fillHistogram c ("hMCTrackInAcceptanceHist" ++ name) FillKind.mcInAcc
           t assocMC vz true weight).toList
     else [])
   | none => [])

/-- One iteration of the track loop of `Process` (cxx lines 196-227)
for one candidate: kinematic cut, track selection, MC-truth step,
cluster matching, then the fills for every satisfied trigger class.
`none` models a null-pointer dereference. -/
def processTrack (c : Component) (data : EventData) (weight : ℤ)
    (names : List String) (t : VTrack) : Option (List Fill) :=
  if ¬ kinePass c.fKineCuts t.core.pt then some []
  else if ¬ selPass c.fTrackSelection t then some []
  else
    match mcStage c data.mcEvent t with
    | none => none
    | some MCStage.skip => some []
    | some (MCStage.cont assocMC corrFills) =>
      match matchCluster data.clusterContainer t.unwrapped.emcalClusterIdx with
      | none => none
      | some hasCluster =>
        some (corrFills ++
          names.flatMap
            (fillsForName c data.recVertexZ weight t assocMC hasCluster))

/-- The track loop over the whole matched-track container. -/
def processTracks (c : Component) (data : EventData) (weight : ℤ)
    (names : List String) : List VTrack → Option (List Fill)
  | [] => some []
  | t :: ts => do
    let f ← processTrack c data weight names t
    let rest ← processTracks c data weight names ts
    pure (f ++ rest)

/-- `Process` (cxx lines 177-228).  The initial `AliDebug` message is
evaluated only when debug logging is enabled and is modelled as a
no-op.  Order of operations as in the source: the MC-required early
return, trigger-name resolution, the matched-track container null
check (with an `AliError`), the event weight, then the track loop. -/
def process (c : Component) (data : EventData) : Option ProcResult :=
  if c.fRequestMCtrue ∧ data.mcEvent.isNone then some ⟨[], []⟩
  else
    match data.matchedTracks with
    | none => some ⟨[], ["No container for matched tracks"]⟩
    | some tracks =>
      match processTracks c data (eventWeight c data)
          c.fTriggerDecision.matchedNames tracks with
      | none => none
      | some fills => some ⟨fills, []⟩

/-- The tuple written by `FillHistogram` with `useMCkine = false`
(reconstructed-track kinematics). -/
def trackTuple (c : Component) (t : VTrack) (vz : ℤ) : List ℤ :=
  [|t.core.pt|, (if c.fSwapEta then -1 else 1) * t.core.eta, t.core.phi,
    vz, if c.fTriggerDecision.isMinBias then 1 else 0]

/-- The tuple written by `FillHistogram` with `useMCkine = true`
(MC-particle kinematics). -/
def mcTuple (c : Component) (mc : MCParticle) (vz : ℤ) : List ℤ :=
  [|mc.pt|, (if c.fSwapEta then -1 else 1) * mc.eta, mc.phi, vz,
    if c.fTriggerDecision.isMinBias then 1 else 0]

/-- Spec-side MC-truth condition: an MC particle exists at the
absolute value of the label, and its physical-primary flag — read
directly when the particle exposes it, queried from the MC event
otherwise — is true. -/
def mcTrueCheck (t : VTrack) (ev : MCEvent) : Bool :=
  match ev.tracks t.core.label.natAbs with
  | none => false
  | some p =>
    match p.aodPrimary with
    | some flag => flag
    | none => ev.physPrimary t.core.label.natAbs

/-- Spec-side raw-fill tuple: (pt, eta with the configured sign flip
applied, phi, vertex z, min-bias flag). -/
def rawTupleSpec (c : Component) (data : EventData) (t : VTrack) : List ℤ :=
  [t.core.pt, if c.fSwapEta then -t.core.eta else t.core.eta, t.core.phi,
    data.recVertexZ, if c.fTriggerDecision.isMinBias then 1 else 0]

/-! Concrete instances used to evaluate the pipeline at explicit
inputs. -/

/-- An event satisfying only the min-bias trigger class. -/
def sampleTrigger : TriggerDecision := ⟨["MinBias"], true⟩

/-- A physical-primary AOD MC particle with pt 4. -/
def samplePart : MCParticle := ⟨4, 1, 2, some true⟩

/-- An MC event holding `samplePart` at label 5. -/
def sampleMCEvent : MCEvent :=
  ⟨fun n => if n = 5 then some samplePart else none, fun _ => false⟩

/-- A plain track, pt 5, label 5, matched-cluster index 0. -/
def sampleTrack : VTrack := .plain ⟨5, 1, 2, 5, 0⟩

/-- A plain track with no matched cluster (index -1). -/
def sampleTrackNoCl : VTrack := .plain ⟨5, 1, 2, 5, -1⟩

/-- Component requiring MC truth, no other collaborators. -/
def compC1 : Component := ⟨none, false, true, none, none, sampleTrigger⟩

/-- Event with neither a matched-track container nor an MC event. -/
def dataC1 : EventData := ⟨none, none, none, 0⟩

/-- Component not requiring MC truth, no collaborators. -/
def compPlain : Component := ⟨none, false, false, none, none, sampleTrigger⟩

/-- Component requiring MC truth with a weighting handler returning 2. -/
def compC2 : Component := ⟨none, false, true, none, some (fun _ => 2), sampleTrigger⟩

/-- Event with one matched track, a one-entry cluster container, and an
MC event. -/
def dataC2 : EventData := ⟨some [sampleTrack], some [some ()], some sampleMCEvent, 3⟩

/-- Component with a weighting handler returning 3, MC truth not
required. -/
def compW : Component := ⟨none, false, false, none, some (fun _ => 3), sampleTrigger⟩

/-- Event with one cluster-less matched track, no cluster container,
an MC event, vertex z 7. -/
def dataW : EventData := ⟨some [sampleTrackNoCl], none, some sampleMCEvent, 7⟩

/-- The outcome of `process compW dataW`: a single raw fill. -/
def resW : ProcResult :=
  ⟨[⟨"hTrackHistMinBias", FillKind.raw, [5, 1, 2, 7, 1], 3⟩], []⟩

/-- Event with one matched track carrying cluster index 0 but no
cluster container. -/
def dataC3 : EventData := ⟨some [sampleTrack], none, none, 0⟩

end EMCalTriggerPtAnalysis

/-!
Embedding of the task-registration macro `AddTaskUpcNano_MB`
(PWGUD/UPC/nanoAOD/AddTaskUpcNano_MB.C).  The local `Bool_t isMC` is
declared without initializer; the `Option Bool` value `none` models
its uninitialized state, and the value recorded in `setIsMCArg` is
what the macro hands to `SetIsMC`.
-/

namespace UpcNano

/-- The analysis manager as the macro sees it:
`inputHandlerDataType = some dt` iff `GetInputEventHandler()` is
non-null with `GetDataType() = dt`; `hasMCtruthHandler` iff
`GetMCtruthEventHandler()` is non-null. -/
structure AnalysisManager where
  inputHandlerDataType : Option String
  hasMCtruthHandler : Bool

/-- The configuration handed to the created task. -/
structure UpcTask where
  dataType : String
  setIsMCArg : Option Bool
  cutEta : Bool

/-- `AddTaskUpcNano_MB` (macro lines 1-38): return null without a
manager or without an input event handler; otherwise declare
`Bool_t isMC` (uninitialized, modelled `none`), set it to `kTRUE` only
when an MC-truth handler exists, and pass it to `SetIsMC`. -/
def addTaskUpcNano_MB (mgr : Option AnalysisManager) (cutEta : Bool) :
    Option UpcTask :=
  match mgr with
  | none => none
  | some m =>
    match m.inputHandlerDataType with
    | none => none
    | some dt =>
      let isMC : Option Bool := none
      let isMC := if m.hasMCtruthHandler then some true else isMC
      some ⟨dt, isMC, cutEta⟩

end UpcNano

open EMCalTriggerPtAnalysis UpcNano

/-! Structural lemmas about the fill pipeline. -/

lemma fillsForName_none_eq (c : Component) (vz w : ℤ) (t : VTrack)
    (hc : Bool) (name : String) :
    fillsForName c vz w t none hc name =
      ⟨"hTrackHist" ++ name, FillKind.raw, trackTuple c t vz, w⟩ ::
        (if hc then
          [⟨"hTrackInAcceptanceHist" ++ name, FillKind.inAcc,
            trackTuple c t vz, w⟩]
        else []) := by
  cases hc <;> rfl

lemma fillsForName_some_eq (c : Component) (vz w : ℤ) (t : VTrack)
    (mc : MCParticle) (hc : Bool) (name : String) :
    fillsForName c vz w t (some mc) hc name =
      ⟨"hTrackHist" ++ name, FillKind.raw, trackTuple c t vz, w⟩ ::
        ((if hc then
          [⟨"hTrackInAcceptanceHist" ++ name, FillKind.inAcc,
            trackTuple c t vz, w⟩]
        else []) ++
        (⟨"hMCTrackHist" ++ name, FillKind.mcRaw, mcTuple c mc vz, w⟩ ::
          (if hc then
            [⟨"hMCTrackInAcceptanceHist" ++ name, FillKind.mcInAcc,
              mcTuple c mc vz, w⟩]
          else []))) := by
  cases hc <;> rfl

lemma filter_raw_fillsForName (c : Component) (vz w : ℤ) (t : VTrack)
    (assocMC : Option MCParticle) (hc : Bool) (name : String) :
    (fillsForName c vz w t assocMC hc name).filter
        (fun f => decide (f.kind = FillKind.raw)) =
      [⟨"hTrackHist" ++ name, FillKind.raw, trackTuple c t vz, w⟩] := by
  cases assocMC <;> cases hc <;> rfl

lemma any_inAcc_fillsForName (c : Component) (vz w : ℤ) (t : VTrack)
    (assocMC : Option MCParticle) (hc : Bool) (name : String) :
    (fillsForName c vz w t assocMC hc name).any
        (fun f => decide (f.kind = FillKind.inAcc)) = hc := by
  cases assocMC <;> cases hc <;> rfl

lemma any_mcRaw_fillsForName (c : Component) (vz w : ℤ) (t : VTrack)
    (assocMC : Option MCParticle) (hc : Bool) (name : String) :
    (fillsForName c vz w t assocMC hc name).any
        (fun f => decide (f.kind = FillKind.mcRaw)) = assocMC.isSome := by
  cases assocMC <;> cases hc <;> rfl

lemma fillsForName_mem_spec (c : Component) (vz w : ℤ) (t : VTrack)
    (assocMC : Option MCParticle) (hc : Bool) (name : String) :
    ∀ f ∈ fillsForName c vz w t assocMC hc name,
      f.weight = w ∧ f.kind ≠ FillKind.corr ∧
        (f.kind = FillKind.raw → f.data = trackTuple c t vz) ∧
        (assocMC = none → f.kind = FillKind.raw ∨ f.kind = FillKind.inAcc) := by
  intro f hf
  cases assocMC with
  | none =>
    rw [fillsForName_none_eq] at hf
    cases hc with
    | false =>
      simp at hf
      subst hf
      simp
    | true =>
      simp at hf
      rcases hf with rfl | rfl <;> simp
  | some mc =>
    rw [fillsForName_some_eq] at hf
    cases hc with
    | false =>
      simp at hf
      rcases hf with rfl | rfl | rfl <;> simp
    | true =>
      simp at hf
      rcases hf with rfl | rfl | rfl | rfl <;> simp

lemma filter_raw_flatMap (c : Component) (vz w : ℤ) (t : VTrack)
    (assocMC : Option MCParticle) (hc : Bool) (names : List String) :
    (names.flatMap (fillsForName c vz w t assocMC hc)).filter
        (fun f => decide (f.kind = FillKind.raw)) =
      names.map
        (fun n => ⟨"hTrackHist" ++ n, FillKind.raw, trackTuple c t vz, w⟩) := by
  induction names with
  | nil => rfl
  | cons n ns ih =>
    simp only [List.flatMap_cons, List.filter_append, List.map_cons,
      filter_raw_fillsForName, ih]
    rfl

lemma any_flatMap_const {α β : Type} (g : α → List β) (p : β → Bool) (b : Bool)
    (hg : ∀ a, (g a).any p = b) :
    ∀ names : List α, names ≠ [] → (names.flatMap g).any p = b := by
  intro names
  induction names with
  | nil => intro h; exact absurd rfl h
  | cons n ns ih =>
    intro _
    cases ns with
    | nil => simp [List.flatMap_cons, hg]
    | cons m ms =>
      simp [List.flatMap_cons, List.any_append, hg, ih]

lemma mcStage_false (c : Component) (me : Option MCEvent) (t : VTrack)
    (hr : c.fRequestMCtrue = false) :
    mcStage c me t = some (MCStage.cont none []) := by
  simp [mcStage, hr]

lemma mcStage_true_none (c : Component) (ev : MCEvent) (t : VTrack)
    (hr : c.fRequestMCtrue = true) (hmt : isMCTrueTrack t ev = none) :
    mcStage c (some ev) t = some MCStage.skip := by
  simp [mcStage, hr, hmt]

lemma mcStage_true_some (c : Component) (ev : MCEvent) (t : VTrack)
    (mc : MCParticle) (hr : c.fRequestMCtrue = true)
    (hmt : isMCTrueTrack t ev = some mc) :
    mcStage c (some ev) t =
      some (MCStage.cont (some mc) [fillCorrelation mc t 1]) := by
  simp [mcStage, hr, hmt]

lemma mcStage_corrFills (c : Component) (me : Option MCEvent) (t : VTrack)
    (a : Option MCParticle) (cf : List Fill)
    (hmc : mcStage c me t = some (MCStage.cont a cf)) :
    ∀ f ∈ cf, f.kind = FillKind.corr ∧ f.weight = 1 := by
  cases hr : c.fRequestMCtrue with
  | false =>
    rw [mcStage_false c me t hr] at hmc
    simp at hmc
    obtain ⟨-, hcf⟩ := hmc
    subst hcf
    simp
  | true =>
    cases me with
    | none => simp [mcStage, hr] at hmc
    | some ev =>
      cases hmt : isMCTrueTrack t ev with
      | none =>
        rw [mcStage_true_none c ev t hr hmt] at hmc
        simp at hmc
      | some mc =>
        rw [mcStage_true_some c ev t mc hr hmt] at hmc
        simp at hmc
        obtain ⟨-, hcf⟩ := hmc
        subst hcf
        simp [fillCorrelation]

lemma matchCluster_some (l : List (Option Unit)) (idx : ℤ) :
    matchCluster (some l) idx =
      some (decide (0 ≤ idx) && (l.getD idx.toNat none).isSome) := by
  by_cases h : 0 ≤ idx <;> simp [matchCluster, h]

lemma isMCTrueTrack_isSome (t : VTrack) (ev : MCEvent) :
    (isMCTrueTrack t ev).isSome = mcTrueCheck t ev := by
  cases htr : ev.tracks t.core.label.natAbs with
  | none => simp [isMCTrueTrack, mcTrueCheck, htr]
  | some p =>
    cases hp : p.aodPrimary with
    | none =>
      cases hpp : ev.physPrimary t.core.label.natAbs <;>
        simp [isMCTrueTrack, mcTrueCheck, htr, hp, hpp]
    | some flag =>
      cases flag <;> simp [isMCTrueTrack, mcTrueCheck, htr, hp]

lemma processTrack_eq (c : Component) (data : EventData) (w : ℤ)
    (names : List String) (t : VTrack) (assocMC : Option MCParticle)
    (corrFills : List Fill) (hcb : Bool)
    (hk : kinePass c.fKineCuts t.core.pt = true)
    (hs : selPass c.fTrackSelection t = true)
    (hmc : mcStage c data.mcEvent t = some (MCStage.cont assocMC corrFills))
    (hcl : matchCluster data.clusterContainer t.unwrapped.emcalClusterIdx =
      some hcb) :
    processTrack c data w names t =
      some (corrFills ++
        names.flatMap (fillsForName c data.recVertexZ w t assocMC hcb)) := by
  simp [processTrack, hk, hs, hmc, hcl]

lemma processTrack_skip (c : Component) (data : EventData) (w : ℤ)
    (names : List String) (t : VTrack)
    (hk : kinePass c.fKineCuts t.core.pt = true)
    (hs : selPass c.fTrackSelection t = true)
    (hmc : mcStage c data.mcEvent t = some MCStage.skip) :
    processTrack c data w names t = some [] := by
  simp [processTrack, hk, hs, hmc]

lemma processTrack_crashCluster (c : Component) (data : EventData) (w : ℤ)
    (names : List String) (t : VTrack) (assocMC : Option MCParticle)
    (corrFills : List Fill)
    (hk : kinePass c.fKineCuts t.core.pt = true)
    (hs : selPass c.fTrackSelection t = true)
    (hmc : mcStage c data.mcEvent t = some (MCStage.cont assocMC corrFills))
    (hcl : matchCluster data.clusterContainer t.unwrapped.emcalClusterIdx =
      none) :
    processTrack c data w names t = none := by
  simp [processTrack, hk, hs, hmc, hcl]

lemma processTrack_mem_weight (c : Component) (data : EventData) (w : ℤ)
    (names : List String) (t : VTrack) (fills : List Fill)
    (hp : processTrack c data w names t = some fills) :
    ∀ f ∈ fills, f.weight = if f.kind = FillKind.corr then 1 else w := by
  cases hk : kinePass c.fKineCuts t.core.pt with
  | false =>
    simp [processTrack, hk] at hp
    subst hp
    simp
  | true =>
    cases hs : selPass c.fTrackSelection t with
    | false =>
      simp [processTrack, hk, hs] at hp
      subst hp
      simp
    | true =>
      cases hmc : mcStage c data.mcEvent t with
      | none => simp [processTrack, hk, hs, hmc] at hp
      | some st =>
        cases st with
        | skip =>
          simp [processTrack, hk, hs, hmc] at hp
          subst hp
          simp
        | cont assocMC corrFills =>
          cases hcl : matchCluster data.clusterContainer
              t.unwrapped.emcalClusterIdx with
          | none => simp [processTrack, hk, hs, hmc, hcl] at hp
          | some hcb =>
            rw [processTrack_eq c data w names t assocMC corrFills hcb
              hk hs hmc hcl] at hp
            simp only [Option.some.injEq] at hp
            subst hp
            intro f hf
            rcases List.mem_append.mp hf with h1 | h2
            · obtain ⟨hk2, hw⟩ :=
                mcStage_corrFills c data.mcEvent t assocMC corrFills hmc f h1
              simp [hk2, hw]
            · obtain ⟨n, -, hfn⟩ := List.mem_flatMap.mp h2
              obtain ⟨hw, hkind, -, -⟩ :=
                fillsForName_mem_spec c data.recVertexZ w t assocMC hcb n f hfn
              simp [hw, hkind]

lemma processTrack_raw_data (c : Component) (data : EventData) (w : ℤ)
    (names : List String) (t : VTrack) (fills : List Fill)
    (hp : processTrack c data w names t = some fills) :
    ∀ f ∈ fills, f.kind = FillKind.raw →
      f.data = trackTuple c t data.recVertexZ := by
  cases hk : kinePass c.fKineCuts t.core.pt with
  | false =>
    simp [processTrack, hk] at hp
    subst hp
    simp
  | true =>
    cases hs : selPass c.fTrackSelection t with
    | false =>
      simp [processTrack, hk, hs] at hp
      subst hp
      simp
    | true =>
      cases hmc : mcStage c data.mcEvent t with
      | none => simp [processTrack, hk, hs, hmc] at hp
      | some st =>
        cases st with
        | skip =>
          simp [processTrack, hk, hs, hmc] at hp
          subst hp
          simp
        | cont assocMC corrFills =>
          cases hcl : matchCluster data.clusterContainer
              t.unwrapped.emcalClusterIdx with
          | none => simp [processTrack, hk, hs, hmc, hcl] at hp
          | some hcb =>
            rw [processTrack_eq c data w names t assocMC corrFills hcb
              hk hs hmc hcl] at hp
            simp only [Option.some.injEq] at hp
            subst hp
            intro f hf hraw
            rcases List.mem_append.mp hf with h1 | h2
            · obtain ⟨hk2, -⟩ :=
                mcStage_corrFills c data.mcEvent t assocMC corrFills hmc f h1
              rw [hraw] at hk2
              cases hk2
            · obtain ⟨n, -, hfn⟩ := List.mem_flatMap.mp h2
              obtain ⟨-, -, hdata, -⟩ :=
                fillsForName_mem_spec c data.recVertexZ w t assocMC hcb n f hfn
              exact hdata hraw

lemma processTrack_kinds_noMC (c : Component) (data : EventData) (w : ℤ)
    (names : List String) (t : VTrack) (fills : List Fill)
    (hr : c.fRequestMCtrue = false)
    (hp : processTrack c data w names t = some fills) :
    ∀ f ∈ fills, f.kind = FillKind.raw ∨ f.kind = FillKind.inAcc := by
  cases hk : kinePass c.fKineCuts t.core.pt with
  | false =>
    simp [processTrack, hk] at hp
    subst hp
    simp
  | true =>
    cases hs : selPass c.fTrackSelection t with
    | false =>
      simp [processTrack, hk, hs] at hp
      subst hp
      simp
    | true =>
      have hmc := mcStage_false c data.mcEvent t hr
      cases hcl : matchCluster data.clusterContainer
          t.unwrapped.emcalClusterIdx with
      | none => simp [processTrack, hk, hs, hmc, hcl] at hp
      | some hcb =>
        rw [processTrack_eq c data w names t none [] hcb hk hs hmc hcl] at hp
        simp only [List.nil_append, Option.some.injEq] at hp
        subst hp
        intro f hf
        obtain ⟨n, -, hfn⟩ := List.mem_flatMap.mp hf
        obtain ⟨-, -, -, hnone⟩ :=
          fillsForName_mem_spec c data.recVertexZ w t none hcb n f hfn
        exact hnone rfl

lemma processTracks_mem (c : Component) (data : EventData) (w : ℤ)
    (names : List String) (P : Fill → Prop)
    (hPT : ∀ t fills, processTrack c data w names t = some fills →
      ∀ f ∈ fills, P f) :
    ∀ ts fills, processTracks c data w names ts = some fills →
      ∀ f ∈ fills, P f := by
  intro ts
  induction ts with
  | nil =>
    intro fills h
    simp [processTracks] at h
    subst h
    simp
  | cons t ts ih =>
    intro fills h
    simp only [processTracks, Option.bind_eq_bind, Option.bind_eq_some,
      Option.pure_def, Option.some.injEq] at h
    obtain ⟨f1, hf1, rest, hrest, hcat⟩ := h
    subst hcat
    intro f hf
    rcases List.mem_append.mp hf with hl | hr2
    · exact hPT t f1 hf1 f hl
    · exact ih rest hrest f hr2

/-! Claim theorems. -/

/-- **C1** (amended): when the matched-track container is absent and
the event is not already discarded by the MC-required early return
(MC truth required with the MC event absent), `Process` logs one
error-severity message and abandons the event with no histogram
fills; the outcome is a normal return (non-fatal to the run), and
processing continues with the next event. -/
theorem claim_C1_missing_container (c : Component) (data : EventData)
    (hm : data.matchedTracks = none)
    (hnot : ¬(c.fRequestMCtrue = true ∧ data.mcEvent = none)) :
    process c data = some ⟨[], ["No container for matched tracks"]⟩ := by
  have hcond : ¬(c.fRequestMCtrue = true ∧ data.mcEvent.isNone = true) := by
    rintro ⟨h1, h2⟩
    exact hnot ⟨h1, Option.isNone_iff_eq_none.mp h2⟩
  simp only [process]
  rw [if_neg hcond, hm]

/-- Witness for C1: container absent, MC truth not required; the error
message is logged and no fills occur. -/
theorem claim_C1_missing_container_witness :
    process compPlain dataC1 =
      some ⟨[], ["No container for matched tracks"]⟩ :=
  claim_C1_missing_container compPlain dataC1 rfl (by simp [compPlain])

/-- **C1** counterexample: with MC truth required and the MC event
absent, an event whose matched-track container is also absent is
abandoned without any error-severity log message, contradicting the
claim that every such event is logged at error severity. -/
theorem claim_C1_counterexample :
    dataC1.matchedTracks = none ∧ process compC1 dataC1 = some ⟨[], []⟩ :=
  ⟨rfl, by decide⟩

/-- **C7**: a candidate with kinematic value v and configured closed
range [lo, hi] passes the cut iff lo ≤ v and v ≤ hi (inclusive at both
ends); with no cut object configured every candidate passes. -/
theorem claim_C7_range_cut (lo hi v : ℤ) :
    (kinePass (some (lo, hi)) v = true ↔ lo ≤ v ∧ v ≤ hi) ∧
    kinePass none v = true := by
  constructor
  · simp [kinePass]
  · rfl

/-- **C8**: when the MC event is absent — if MC truth is required the
whole event is skipped with no histogram fills; if MC truth is not
required, only MC-dependent fills are skipped: every fill the event
performs is a raw or an in-acceptance fill (no MC-aggregate and no
correlation fill). -/
theorem claim_C8_absent_mc (c : Component) (data : EventData)
    (hme : data.mcEvent = none) :
    (c.fRequestMCtrue = true → process c data = some ⟨[], []⟩) ∧
    (c.fRequestMCtrue = false →
      (process c data).all
        (fun r => r.fills.all fun f =>
          decide (f.kind = FillKind.raw ∨ f.kind = FillKind.inAcc)) =
        true) := by
  constructor
  · intro hr
    simp [process, hr, hme]
  · intro hr
    cases hmt : data.matchedTracks with
    | none => simp [process, hr, hmt]
    | some tracks =>
      cases hpt : processTracks c data (eventWeight c data)
          c.fTriggerDecision.matchedNames tracks with
      | none => simp [process, hr, hmt, hpt]
      | some fills =>
        have hproc : process c data = some ⟨fills, []⟩ := by
          simp [process, hr, hmt, hpt]
        rw [hproc]
        simp only [Option.all]
        rw [List.all_eq_true]
        intro f hf
        have hk := processTracks_mem c data (eventWeight c data)
          c.fTriggerDecision.matchedNames
          (fun f => f.kind = FillKind.raw ∨ f.kind = FillKind.inAcc)
          (fun t fl h => processTrack_kinds_noMC c data _ _ t fl hr h)
          tracks fills hpt f hf
        rcases hk with h | h <;> simp [h]

/-- Witness for C8: MC truth required, MC event absent — the whole
event is skipped with no fills or logs. -/
theorem claim_C8_absent_mc_witness :
    process compC1 dataC1 = some ⟨[], []⟩ :=
  (claim_C8_absent_mc compC1 dataC1 rfl).1 rfl

/-- **C9**: in the task-registration macro, with an analysis manager
that has an input event handler but no MC-truth event handler, the
`Bool_t isMC` local is passed to `SetIsMC` without ever having been
assigned: the value handed to the task is the uninitialized value
(modelled as `none`). -/
theorem claim_C9_uninitialized_isMC (m : AnalysisManager) (dt : String)
    (ce : Bool) (hin : m.inputHandlerDataType = some dt)
    (hmc : m.hasMCtruthHandler = false) :
    addTaskUpcNano_MB (some m) ce = some ⟨dt, none, ce⟩ := by
  simp [addTaskUpcNano_MB, hin, hmc]

/-- Witness for C9 at a concrete manager with an ESD input handler and
no MC-truth handler. -/
theorem claim_C9_uninitialized_isMC_witness :
    addTaskUpcNano_MB (some ⟨some "ESD", false⟩) false =
      some ⟨"ESD", none, false⟩ :=
  claim_C9_uninitialized_isMC ⟨some "ESD", false⟩ "ESD" false rfl rfl

/-- **C10**: every per-trigger fill records the absolute value of the
transverse momentum (of the track, or of the MC particle when MC
kinematics are requested) as its first component, with eta unmodified
up to the configured sign flip and phi unmodified; the correlation
fill records (|gen pt|, |rec pt|, rec eta, rec phi) with eta and phi
unmodified. -/
theorem claim_C10_abs_pt (c : Component) (hn : String) (k : FillKind)
    (t : VTrack) (a : Option MCParticle) (mc gen : MCParticle) (vz w : ℤ) :
    (fillHistogram c hn k t a vz false w).map Fill.data =
      some [|t.core.pt|,
        if c.fSwapEta then -t.core.eta else t.core.eta, t.core.phi, vz,
        if c.fTriggerDecision.isMinBias then 1 else 0] ∧
    (fillHistogram c hn k t (some mc) vz true w).map Fill.data =
      some [|mc.pt|, if c.fSwapEta then -mc.eta else mc.eta, mc.phi, vz,
        if c.fTriggerDecision.isMinBias then 1 else 0] ∧
    (fillCorrelation gen t w).data =
      [|gen.pt|, |t.core.pt|, t.core.eta, t.core.phi] := by
  refine ⟨?_, ?_, rfl⟩
  · cases hsw : c.fSwapEta <;> simp [fillHistogram, hsw]
  · cases hsw : c.fSwapEta <;> simp [fillHistogram, hsw]

/-- **C2** (amended): the weight is computed once per event — the
weighting handler's output when both a handler and an MC event are
present, exactly 1 otherwise — and applied to every per-trigger
histogram fill of that event; the correlation-aggregate fill, however,
is always performed with weight 1 (the call site passes no weight
argument), not with the per-event weight. -/
theorem claim_C2_weight (c : Component) (data : EventData) (r : ProcResult)
    (hp : process c data = some r) :
    r.fills.all
      (fun f => decide (f.weight =
        if f.kind = FillKind.corr then 1 else eventWeight c data)) = true := by
  rw [List.all_eq_true]
  intro f hf
  rw [decide_eq_true_eq]
  by_cases hcond : c.fRequestMCtrue = true ∧ data.mcEvent.isNone = true
  · simp only [process, if_pos hcond] at hp
    obtain rfl : ProcResult.mk [] [] = r := by simpa using hp
    simp at hf
  · cases hmt : data.matchedTracks with
    | none =>
      simp only [process, if_neg hcond, hmt] at hp
      obtain rfl : ProcResult.mk [] ["No container for matched tracks"] = r :=
        by simpa using hp
      simp at hf
    | some tracks =>
      cases hpt : processTracks c data (eventWeight c data)
          c.fTriggerDecision.matchedNames tracks with
      | none => simp [process, if_neg hcond, hmt, hpt] at hp
      | some fills =>
        simp only [process, if_neg hcond, hmt, hpt] at hp
        obtain rfl : ProcResult.mk fills [] = r := by simpa using hp
        exact processTracks_mem c data (eventWeight c data)
          c.fTriggerDecision.matchedNames
          (fun f => f.weight =
            if f.kind = FillKind.corr then 1 else eventWeight c data)
          (fun t fl h => processTrack_mem_weight c data _ _ t fl h)
          tracks fills hpt f hf

/-- Witness for C2 at a concrete event: handler present with an MC
event, weight 3, one raw fill carrying weight 3. -/
theorem claim_C2_weight_witness :
    resW.fills.all
      (fun f => decide (f.weight =
        if f.kind = FillKind.corr then 1 else eventWeight compW dataW)) =
      true :=
  claim_C2_weight compW dataW resW (by decide)

/-- **C2** counterexample: the weighting handler returns 2 and an MC
event is present, so the event weight is 2, yet the
correlation-aggregate fill performed during the event carries
weight 1 — the same weight is not applied to every fill. -/
theorem claim_C2_counterexample :
    eventWeight compC2 dataC2 = 2 ∧
    (process compC2 dataC2).map
        (fun r => (r.fills.filter fun f =>
          decide (f.kind = FillKind.corr)).map Fill.weight) = some [1] := by
  constructor
  · rfl
  · decide

/-- **C3** (amended): for a candidate passing selection, when the
cluster collection is present the in-acceptance aggregates are filled
iff the candidate's cluster index is non-negative and that index
resolves to a non-null cluster; when the cluster collection is absent,
a candidate with negative index completes with no in-acceptance fill,
but a selected candidate with non-negative index makes `Process`
dereference the absent collection, so processing of the event does
not complete. -/
theorem claim_C3_cluster_matching (c : Component) (data : EventData)
    (w : ℤ) (names : List String) (t : VTrack) (assocMC : Option MCParticle)
    (corrFills : List Fill)
    (hk : kinePass c.fKineCuts t.core.pt = true)
    (hs : selPass c.fTrackSelection t = true)
    (hmc : mcStage c data.mcEvent t = some (MCStage.cont assocMC corrFills))
    (hn : names ≠ []) :
    (∀ l, data.clusterContainer = some l →
      (processTrack c data w names t).map
          (fun fills => fills.any fun f => decide (f.kind = FillKind.inAcc)) =
        some (decide (0 ≤ t.unwrapped.emcalClusterIdx) &&
          (l.getD t.unwrapped.emcalClusterIdx.toNat none).isSome)) ∧
    (data.clusterContainer = none → 0 ≤ t.unwrapped.emcalClusterIdx →
      processTrack c data w names t = none) ∧
    (data.clusterContainer = none → t.unwrapped.emcalClusterIdx < 0 →
      (processTrack c data w names t).map
          (fun fills => fills.any fun f => decide (f.kind = FillKind.inAcc)) =
        some false) := by
  have hcorr : ∀ b : Bool,
      corrFills.any (fun f => decide (f.kind = FillKind.inAcc)) = false := by
    intro b
    rw [List.any_eq_false]
    intro f hf
    obtain ⟨hk2, -⟩ := mcStage_corrFills c data.mcEvent t assocMC corrFills hmc f hf
    simp [hk2]
  refine ⟨?_, ?_, ?_⟩
  · intro l hl
    have hcl : matchCluster data.clusterContainer t.unwrapped.emcalClusterIdx =
        some (decide (0 ≤ t.unwrapped.emcalClusterIdx) &&
          (l.getD t.unwrapped.emcalClusterIdx.toNat none).isSome) := by
      rw [hl, matchCluster_some]
    rw [processTrack_eq c data w names t assocMC corrFills _ hk hs hmc hcl]
    simp only [Option.map_some', Option.some.injEq, List.any_append]
    rw [hcorr true,
      any_flatMap_const (fillsForName c data.recVertexZ w t assocMC _)
        (fun f => decide (f.kind = FillKind.inAcc)) _
        (fun n => any_inAcc_fillsForName c data.recVertexZ w t assocMC _ n)
        names hn]
    simp
  · intro hcc hidx
    have hcl : matchCluster data.clusterContainer
        t.unwrapped.emcalClusterIdx = none := by
      simp [matchCluster, hcc, hidx]
    exact processTrack_crashCluster c data w names t assocMC corrFills
      hk hs hmc hcl
  · intro hcc hidx
    have hcl : matchCluster data.clusterContainer
        t.unwrapped.emcalClusterIdx = some false := by
      simp [matchCluster, hcc, not_le.mpr hidx]
    rw [processTrack_eq c data w names t assocMC corrFills false hk hs hmc hcl]
    simp only [Option.map_some', Option.some.injEq, List.any_append]
    rw [hcorr false,
      any_flatMap_const (fillsForName c data.recVertexZ w t assocMC false)
        (fun f => decide (f.kind = FillKind.inAcc)) false
        (fun n => any_inAcc_fillsForName c data.recVertexZ w t assocMC false n)
        names hn]
    rfl

/-- Witness for C3: cluster collection present with one valid cluster
at index 0 and a candidate with cluster index 0 — the in-acceptance
aggregate is filled. -/
theorem claim_C3_cluster_matching_witness :
    (processTrack compPlain dataC2 1 ["MinBias"] sampleTrack).map
        (fun fills => fills.any fun f => decide (f.kind = FillKind.inAcc)) =
      some (decide (0 ≤ sampleTrack.unwrapped.emcalClusterIdx) &&
        ([some ()].getD sampleTrack.unwrapped.emcalClusterIdx.toNat
          none).isSome) :=
  (claim_C3_cluster_matching compPlain dataC2 1 ["MinBias"] sampleTrack
    none [] rfl rfl (mcStage_false compPlain dataC2.mcEvent sampleTrack rfl)
    (by decide)).1 [some ()] rfl

/-- **C3** counterexample: the cluster collection is absent and the
selected candidate has cluster index 0, so the absent collection is
dereferenced and processing of the event does not complete — contrary
to the claim that processing still completes when the cluster
collection is absent. -/
theorem claim_C3_counterexample :
    dataC3.clusterContainer = none ∧ process compPlain dataC3 = none :=
  ⟨rfl, by decide⟩

/-- **C4**: for a candidate passing the kinematic and track-selection
cuts, with the MC event present, cluster matching completing, and at
least one satisfied trigger class, the MC-truth aggregates are filled
for the candidate iff the MC-truth-required mode is enabled AND an MC
particle exists at the absolute value of the candidate's label AND
that particle's physical-primary flag — read directly when the
particle exposes it, queried from the MC event via the label
otherwise — is true; moreover, when the mode is enabled and the check
fails, the candidate is skipped entirely (no fills at all for it). -/
theorem claim_C4_mc_truth (c : Component) (data : EventData) (w : ℤ)
    (names : List String) (t : VTrack) (ev : MCEvent) (hcb : Bool)
    (hme : data.mcEvent = some ev)
    (hk : kinePass c.fKineCuts t.core.pt = true)
    (hs : selPass c.fTrackSelection t = true)
    (hcl : matchCluster data.clusterContainer t.unwrapped.emcalClusterIdx =
      some hcb)
    (hn : names ≠ []) :
    (processTrack c data w names t).map
        (fun fills => fills.any fun f => decide (f.kind = FillKind.mcRaw)) =
      some (c.fRequestMCtrue && mcTrueCheck t ev) ∧
    (c.fRequestMCtrue = true → mcTrueCheck t ev = false →
      processTrack c data w names t = some []) := by
  cases hr : c.fRequestMCtrue with
  | false =>
    have hmc := mcStage_false c data.mcEvent t hr
    rw [processTrack_eq c data w names t none [] hcb hk hs hmc hcl]
    constructor
    · simp only [Option.map_some', Option.some.injEq, List.nil_append]
      rw [any_flatMap_const (fillsForName c data.recVertexZ w t none hcb)
        (fun f => decide (f.kind = FillKind.mcRaw)) false
        (fun n => any_mcRaw_fillsForName c data.recVertexZ w t none hcb n)
        names hn]
      rfl
    · intro h
      simp at h
  | true =>
    cases hmt : isMCTrueTrack t ev with
    | none =>
      have hmc : mcStage c data.mcEvent t = some MCStage.skip := by
        rw [hme]
        exact mcStage_true_none c ev t hr hmt
      rw [processTrack_skip c data w names t hk hs hmc]
      have hcheck : mcTrueCheck t ev = false := by
        rw [← isMCTrueTrack_isSome t ev, hmt]
        rfl
      constructor
      · simp [hcheck]
      · intro _ _
        rfl
    | some mc =>
      have hmc : mcStage c data.mcEvent t =
          some (MCStage.cont (some mc) [fillCorrelation mc t 1]) := by
        rw [hme]
        exact mcStage_true_some c ev t mc hr hmt
      rw [processTrack_eq c data w names t (some mc) _ hcb hk hs hmc hcl]
      have hcheck : mcTrueCheck t ev = true := by
        rw [← isMCTrueTrack_isSome t ev, hmt]
        rfl
      constructor
      · simp only [Option.map_some', Option.some.injEq, List.any_append]
        rw [any_flatMap_const (fillsForName c data.recVertexZ w t (some mc) hcb)
          (fun f => decide (f.kind = FillKind.mcRaw)) ((some mc).isSome)
          (fun n => any_mcRaw_fillsForName c data.recVertexZ w t (some mc) hcb n)
          names hn]
        simp [hcheck, fillCorrelation]
      · intro _ hfalse
        rw [hcheck] at hfalse
        simp at hfalse

/-- Witness for C4: MC truth required, MC event holding a primary
particle at the track's label, one satisfied trigger class — the MC
aggregate is filled. -/
theorem claim_C4_mc_truth_witness :
    (processTrack compC1 dataC2 1 ["MinBias"] sampleTrack).map
        (fun fills => fills.any fun f => decide (f.kind = FillKind.mcRaw)) =
      some (compC1.fRequestMCtrue && mcTrueCheck sampleTrack sampleMCEvent) :=
  (claim_C4_mc_truth compC1 dataC2 1 ["MinBias"] sampleTrack sampleMCEvent
    true rfl rfl rfl (by decide) (by decide)).1

/-- **C5**: for a candidate that passes selection (the kinematic and
track-selection cuts, and the MC-truth step when required), one raw
aggregate fill is performed per satisfied trigger class, into the
aggregate named `hTrackHist<class>`, in order — so exactly N raw
fills for N satisfied classes and 0 when no class is satisfied. -/
theorem claim_C5_raw_fill_count (c : Component) (data : EventData) (w : ℤ)
    (names : List String) (t : VTrack) (assocMC : Option MCParticle)
    (corrFills : List Fill) (hcb : Bool)
    (hk : kinePass c.fKineCuts t.core.pt = true)
    (hs : selPass c.fTrackSelection t = true)
    (hmc : mcStage c data.mcEvent t = some (MCStage.cont assocMC corrFills))
    (hcl : matchCluster data.clusterContainer t.unwrapped.emcalClusterIdx =
      some hcb) :
    (processTrack c data w names t).map
        (fun fills => (fills.filter fun f =>
          decide (f.kind = FillKind.raw)).map Fill.histname) =
      some (names.map fun n => "hTrackHist" ++ n) := by
  rw [processTrack_eq c data w names t assocMC corrFills hcb hk hs hmc hcl]
  simp only [Option.map_some', Option.some.injEq, List.filter_append]
  have h1 : corrFills.filter (fun f => decide (f.kind = FillKind.raw)) = [] := by
    rw [List.filter_eq_nil_iff]
    intro f hf
    obtain ⟨hk2, -⟩ :=
      mcStage_corrFills c data.mcEvent t assocMC corrFills hmc f hf
    simp [hk2]
  rw [h1, filter_raw_flatMap]
  simp [List.map_map, Function.comp]

/-- Witness for C5: a passing candidate in an event satisfying only
the min-bias class yields exactly one raw fill, into
`hTrackHistMinBias`. -/
theorem claim_C5_raw_fill_count_witness :
    (processTrack compW dataW 3 ["MinBias"] sampleTrackNoCl).map
        (fun fills => (fills.filter fun f =>
          decide (f.kind = FillKind.raw)).map Fill.histname) =
      some (["MinBias"].map fun n => "hTrackHist" ++ n) :=
  claim_C5_raw_fill_count compW dataW 3 ["MinBias"] sampleTrackNoCl none []
    false rfl rfl (mcStage_false compW dataW.mcEvent sampleTrackNoCl rfl)
    (by decide)

lemma trackTuple_eq_rawTupleSpec (c : Component) (data : EventData)
    (t : VTrack) (hpt : 0 ≤ t.core.pt) :
    trackTuple c t data.recVertexZ = rawTupleSpec c data t := by
  unfold trackTuple rawTupleSpec
  rw [abs_of_nonneg hpt]
  cases hsw : c.fSwapEta <;> simp

/-- **C6**: every raw-aggregate fill performed for a candidate records
the ordered 5-tuple (pt, eta, phi, vertex z, min-bias flag): the pt of
the track (nonnegative by construction in the source, hence equal to
its recorded absolute value), eta negated exactly when the sign-flip
configuration is enabled, phi unmodified, the z coordinate of the
reconstructed event's primary vertex, and the trigger decision's
min-bias flag. -/
theorem claim_C6_raw_tuple (c : Component) (data : EventData) (w : ℤ)
    (names : List String) (t : VTrack) (fills : List Fill)
    (hp : processTrack c data w names t = some fills)
    (hpt : 0 ≤ t.core.pt) :
    (fills.filter fun f => decide (f.kind = FillKind.raw)).all
      (fun f => decide (f.data = rawTupleSpec c data t)) = true := by
  rw [List.all_eq_true]
  intro f hf
  rw [decide_eq_true_eq]
  obtain ⟨hin, hkd⟩ := List.mem_filter.mp hf
  have hkind := of_decide_eq_true hkd
  have hdata := processTrack_raw_data c data w names t fills hp f hin hkind
  rw [hdata, trackTuple_eq_rawTupleSpec c data t hpt]

/-- Witness for C6: the single raw fill of the concrete event records
(5, 1, 2, 7, 1). -/
theorem claim_C6_raw_tuple_witness :
    (resW.fills.filter fun f => decide (f.kind = FillKind.raw)).all
      (fun f => decide (f.data = rawTupleSpec compW dataW sampleTrackNoCl)) =
      true :=
  claim_C6_raw_tuple compW dataW 3 ["MinBias"] sampleTrackNoCl resW.fills
    (by decide) (by decide)
